import Mathlib

set_option maxHeartbeats 1000000

/-!
Shallow embedding of azul's `src/Parser.hpp`: the pugixml tree walkers
(PointsWalker, RingsWalker, PolygonsWalker, ObjectsWalker) translated as pure
functions over the sequence of visited nodes, together with models of the
C++ library facilities they call (istream token extraction, std::stof) and,
for the Parser member functions whose bodies are not part of the header,
definitions modelled from the specification.
-/

/-- Coordinate values. The source stores `float`; coordinates are modelled as
rationals since no verified claim depends on floating-point rounding. -/
abbrev Coord := ℚ

/-- The default-locale whitespace set used by C++ istream extraction. -/
def isCppSpace (c : Char) : Bool :=
  c = ' ' || c = '\t' || c = '\n' || c = '\r' || c = '\x0B' || c = '\x0C'

/-- Decimal digit test, as C's isdigit on the characters of a token. -/
def isDigitChar (c : Char) : Bool := c.isDigit

/-- Numeric value of a decimal digit character. -/
def digitVal (c : Char) : ℕ := c.toNat - '0'.toNat

/-- Value of a decimal digit string. -/
def digitsToNat (ds : List Char) : ℕ := ds.foldl (fun a c => 10 * a + digitVal c) 0

/-- Split an optional leading sign from a character list; returns
(isNegative, rest). -/
def splitSign : List Char → Bool × List Char
  | '+' :: cs => (false, cs)
  | '-' :: cs => (true, cs)
  | cs => (false, cs)

/-- Value of an exponent tail after the letter e or E: optional sign and at
least one digit, else 0 (strtof backtracks over an incomplete exponent, so the
mantissa alone stands). -/
def expValueAfterE (cs : List Char) : ℤ :=
  let sr := splitSign cs
  let ds := sr.2.takeWhile isDigitChar
  if ds.isEmpty then 0
  else if sr.1 then -(digitsToNat ds : ℤ) else (digitsToNat ds : ℤ)

/-- Value of the optional exponent part of a float token. -/
def expValue : List Char → ℤ
  | 'e' :: cs => expValueAfterE cs
  | 'E' :: cs => expValueAfterE cs
  | _ => 0

/-- FLT_MAX, the largest finite IEEE-754 single-precision value,
(2^24 - 1) * 2^104, as a natural number. -/
def fltMaxNat : ℕ := (2 ^ 24 - 1) * 2 ^ 104

/-- Whether the magnitude n * 10^(e - f) exceeds FLT_MAX, decided in ℕ
(n is the digit string's value, f the number of fractional digits, e the
exponent). -/
def overflowsFloat (n : ℕ) (e : ℤ) (f : ℕ) : Bool :=
  if (f : ℤ) ≤ e then fltMaxNat < n * 10 ^ (e - (f : ℤ)).toNat
  else fltMaxNat * 10 ^ ((f : ℤ) - e).toNat < n

/-- The exact rational value of a parsed decimal token: sign, digit value n,
exponent e, fractional digit count f. -/
def ratValue (neg : Bool) (n : ℕ) (e : ℤ) (f : ℕ) : Coord :=
  let mag : ℚ := (n : ℚ) * (10 : ℚ) ^ (e - (f : ℤ))
  if neg then -mag else mag

/-- Result of one call to C++ std::stof on a token: a converted value, or one
of the two exceptions it can throw. -/
inductive StofResult where
  | ok (value : Coord)
  | invalidArgument
  | outOfRange
deriving DecidableEq

/-- Model of C++ std::stof on decimal forms: skip leading whitespace, read an
optional sign, digits with an optional fractional part, and an optional
exponent; trailing characters are ignored. Throws std::invalid_argument when
no digits can be read and std::out_of_range when the converted value is
outside float range (modelled as magnitude above FLT_MAX); the value itself is
kept exact, which no claim distinguishes from float rounding. The hexadecimal,
infinity and NaN spellings of strtof are not modelled; no claim uses them. -/
def stofModel (s : String) : StofResult :=
  let cs := s.toList.dropWhile (fun c => isCppSpace c)
  let sr := splitSign cs
  let intDs := sr.2.takeWhile isDigitChar
  let cs2 := sr.2.dropWhile isDigitChar
  let fr :=
    match cs2 with
    | '.' :: rest => (rest.takeWhile isDigitChar, rest.dropWhile isDigitChar)
    | _ => ([], cs2)
  if intDs.isEmpty && fr.1.isEmpty then .invalidArgument
  else
    let n := digitsToNat (intDs ++ fr.1)
    let e := expValue fr.2
    let f := fr.1.length
    if overflowsFloat n e f then .outOfRange
    else .ok (ratValue sr.1 n e f)

/-- True when stof succeeds on the token. -/
def isOkStof (t : String) : Bool :=
  match stofModel t with
  | .ok _ => true
  | _ => false

/-- The value stof converts the token to (0 when stof throws). -/
def stofValue (t : String) : Coord :=
  match stofModel t with
  | .ok v => v
  | _ => 0

/-- Accumulating splitter behind tokenize: acc holds the characters of the
current token in reverse. -/
def tokenizeAux : List Char → List Char → List String
  | [], acc => if acc.isEmpty then [] else [String.mk acc.reverse]
  | c :: cs, acc =>
    if isCppSpace c then
      if acc.isEmpty then tokenizeAux cs []
      else String.mk acc.reverse :: tokenizeAux cs []
    else tokenizeAux cs (c :: acc)

/-- The token sequence the do/while extraction loop reads from the
istringstream over the node's text: the maximal nonempty runs between
whitespace, in order. -/
def tokenize (s : String) : List String := tokenizeAux s.toList []

/-- struct ParsedPoint (Parser.hpp:45-47): float coordinates[3]. The C++
array is default-uninitialized; unwritten slots are modelled as 0, which is
unobservable because every partially written point is either completed or
cleared before the walker returns. -/
structure ParsedPoint where
  coordinates : Fin 3 → Coord

instance : DecidableEq ParsedPoint := fun a b =>
  decidable_of_iff (a.coordinates = b.coordinates) (by cases a; cases b; simp)

/-- Outcome of the do/while token loop in PointsWalker::for_each
(Parser.hpp:76-89). The points list is kept most recent first (push_back is
cons); the caller reverses. done carries the list and the final
currentCoordinate; invalid is the caught std::invalid_argument branch; thrown
is an escaping std::out_of_range. -/
inductive PointsLoopResult where
  | done (points : List ParsedPoint) (currentCoordinate : Fin 3)
  | invalid
  | thrown
deriving DecidableEq

/-- The token loop of PointsWalker::for_each (Parser.hpp:76-89): for each
token, push_back a fresh point when currentCoordinate == 0, store the stof
value at index currentCoordinate of the last point, and advance
currentCoordinate = (currentCoordinate + 1) % 3 (Fin 3 addition). The catch
clause catches std::invalid_argument only. The empty-list inner case is
unreachable: when currentCoordinate is not 0 a point was pushed earlier in
this same loop. -/
def pointsLoop : List String → List ParsedPoint → Fin 3 → PointsLoopResult
  | [], ps, cc => .done ps cc
  | tok :: rest, ps, cc =>
    let ps1 := if cc = 0 then ({ coordinates := fun _ => 0 } : ParsedPoint) :: ps else ps
    match stofModel tok with
    | .invalidArgument => .invalid
    | .outOfRange => .thrown
    | .ok v =>
      match ps1 with
      | [] => pointsLoop rest [] (cc + 1)
      | p :: tail => pointsLoop rest ({ coordinates := Function.update p.coordinates cc v } :: tail) (cc + 1)

/-- Result of one for_each call on a walker: the updated accumulated points,
the number of diagnostic lines printed during the call, and the returned bool
(true continues the traversal); or thrown when an uncaught exception
propagates out of for_each. -/
inductive ForEachResult where
  | ret (points : List ParsedPoint) (diagnostics : ℕ) (continueTraversal : Bool)
  | thrown
deriving DecidableEq

/-- PointsWalker::for_each (Parser.hpp:69-95) on one visited node, given the
walker's accumulated points and the node's name and text: only the exact
names gml:pos and gml:posList are read (strcmp on the full name); a caught
invalid token prints once, clears all accumulated points and returns true; a
final currentCoordinate different from 0 prints once and clears all
accumulated points; otherwise the parsed points are appended. -/
def PointsWalker.forEach (points : List ParsedPoint) (name childValue : String) : ForEachResult :=
  if name = "gml:pos" || name = "gml:posList" then
    match pointsLoop (tokenize childValue) points.reverse 0 with
    | .done ps cc => if cc ≠ 0 then .ret [] 1 true else .ret ps.reverse 0 true
    | .invalid => .ret [] 1 true
    | .thrown => .thrown
  else .ret points 0 true

/-- Namespace stripping as done by PolygonsWalker and ObjectsWalker
(Parser.hpp:115-119 and 139-143): strchr locates the first colon of the
element name; when present, the name becomes the text after that colon,
otherwise it is unchanged. -/
def stripNamespace (s : String) : String :=
  match s.toList.dropWhile (fun c => c != ':') with
  | [] => s
  | _ :: rest => String.mk rest

/-- One traversal visit as seen by a pugixml tree walker: the node's name and
the depth reported by depth() (0 for direct children of the walked node),
supplied for every node of the subtree in document order. -/
structure Visit where
  name : String
  depth : ℕ
deriving DecidableEq

/-- struct RingsWalker (Parser.hpp:98-108): the last node named gml:exterior
seen so far (the xml_node field starts null) and the nodes named gml:interior
in document order. Nodes are identified by their position in the visit
sequence. -/
structure RingsWalker where
  exteriorRing : Option ℕ
  interiorRings : List ℕ
deriving DecidableEq

/-- RingsWalker::for_each (Parser.hpp:101-107) on one visited node: a node
named gml:exterior is assigned to exteriorRing, a node named gml:interior is
appended to interiorRings; every other node is ignored. -/
def RingsWalker.forEach (st : RingsWalker) (idx : ℕ) (name : String) : RingsWalker :=
  if name = "gml:exterior" then { st with exteriorRing := some idx }
  else if name = "gml:interior" then { st with interiorRings := st.interiorRings ++ [idx] }
  else st

/-- Running RingsWalker over the visit sequence of a Polygon node's subtree. -/
def RingsWalker.run (visits : List Visit) : RingsWalker :=
  visits.enum.foldl (fun st p => st.forEach p.1 p.2.name) ⟨none, []⟩

/-- The positions of the visits with the given name, in document order. -/
def indicesNamed (visits : List Visit) (nm : String) : List ℕ :=
  (visits.enum.filter (fun p => p.2.name = nm)).map (fun p => p.1)

/-- The positions of the direct children (pugixml walker depth 0) with the
given name, in document order; used to state the children-only reading of
ring discovery. -/
def childIndicesNamed (visits : List Visit) (nm : String) : List ℕ :=
  (visits.enum.filter (fun p => p.2.name = nm ∧ p.2.depth = 0)).map (fun p => p.1)

/-- struct PolygonsWalker (Parser.hpp:110-134). polygonsByType is the
std::map of per-surface-type node lists, modelled as the flat filing sequence
of (type key, node position) pairs: the map's entry for key t is the
subsequence with first component t, in order. inDefinedType starts "" =
undefined; depthToStop is uninitialized in the C++ and never read while
inDefinedType is "" (short-circuit), modelled as 0. -/
structure PolygonsWalker where
  polygonsByType : List (String × ℕ)
  inDefinedType : String
  depthToStop : ℕ
deriving DecidableEq

/-- The initial PolygonsWalker state. -/
def PolygonsWalker.init : PolygonsWalker := ⟨[], "", 0⟩

/-- PolygonsWalker::for_each (Parser.hpp:114-133) on one visited node, given
the node's position idx, name and traversal depth: strip the namespace
prefix; first an active defined type ends when depth() <= depthToStop; then a
surface-type name (Door, GroundSurface, RoofSurface, Window) starts a new
defined type remembering this depth, and a Polygon or Triangle node is filed
under the active type key. -/
def PolygonsWalker.forEach (st : PolygonsWalker) (idx : ℕ) (name : String) (depth : ℕ) : PolygonsWalker :=
  let nodeType := stripNamespace name
  let st1 := if st.inDefinedType ≠ "" ∧ depth ≤ st.depthToStop then { st with inDefinedType := "" } else st
  if nodeType = "Door" || nodeType = "GroundSurface" || nodeType = "RoofSurface" || nodeType = "Window" then
    { st1 with inDefinedType := nodeType, depthToStop := depth }
  else if nodeType = "Polygon" || nodeType = "Triangle" then
    { st1 with polygonsByType := st1.polygonsByType ++ [(st1.inDefinedType, idx)] }
  else st1

/-- Running PolygonsWalker over the visit sequence of an object's subtree. -/
def PolygonsWalker.run (visits : List Visit) : PolygonsWalker :=
  visits.enum.foldl (fun st p => st.forEach p.1 p.2.name p.2.depth) .init

/-- The node positions filed under one surface-type key, in filing order. -/
def PolygonsWalker.byType (st : PolygonsWalker) (t : String) : List ℕ :=
  (st.polygonsByType.filter (fun e => e.1 = t)).map (fun e => e.2)

/-- The four surface-type names recognised by PolygonsWalker
(Parser.hpp:123-126). -/
def definedSurfaceTypes : List String := ["Door", "GroundSurface", "RoofSurface", "Window"]

/-- struct ObjectsWalker (Parser.hpp:136-164): the collected city-object
nodes, identified by their position in the visit sequence. -/
structure ObjectsWalker where
  objects : List ℕ
deriving DecidableEq

/-- The sixteen city-object type names of ObjectsWalker::for_each
(Parser.hpp:145-160). -/
def cityObjectTypes : List String :=
  ["AuxiliaryTrafficArea", "Bridge", "Building", "BuildingPart",
   "BuildingInstallation", "CityFurniture", "GenericCityObject", "LandUse",
   "PlantCover", "Railway", "ReliefFeature", "Road",
   "SolitaryVegetationObject", "TrafficArea", "Tunnel", "WaterBody"]

/-- ObjectsWalker::for_each (Parser.hpp:138-163) on one visited node: strip
the namespace prefix; the node is collected when the remaining name equals
one of the sixteen whitelisted city-object type names. -/
def ObjectsWalker.forEach (st : ObjectsWalker) (idx : ℕ) (name : String) : ObjectsWalker :=
  let nodeType := stripNamespace name
  if nodeType = "AuxiliaryTrafficArea" || nodeType = "Bridge" ||
      nodeType = "Building" || nodeType = "BuildingPart" ||
      nodeType = "BuildingInstallation" || nodeType = "CityFurniture" ||
      nodeType = "GenericCityObject" || nodeType = "LandUse" ||
      nodeType = "PlantCover" || nodeType = "Railway" ||
      nodeType = "ReliefFeature" || nodeType = "Road" ||
      nodeType = "SolitaryVegetationObject" || nodeType = "TrafficArea" ||
      nodeType = "Tunnel" || nodeType = "WaterBody" then
    { objects := st.objects ++ [idx] }
  else st

/-- Running ObjectsWalker over the visit sequence of the document tree. -/
def ObjectsWalker.run (names : List String) : ObjectsWalker :=
  names.enum.foldl (fun st p => st.forEach p.1 p.2) ⟨[]⟩

/-- The face info carried by FaceBaseWithInfo (Parser.hpp:41): a
std::pair of bool: first = inside-exterior, second = inside-some-hole. -/
abbrev FaceInfo := Bool × Bool

/-- A triangulation face: its FaceInfo classification flags and the original
3D coordinates of its three vertices. -/
structure TriFace where
  info : FaceInfo
  vertex : Fin 3 → Coord × Coord × Coord

/-- Modelled from the spec: the body of
Parser::addTrianglesFromTheConstrainedTriangulationOfPolygon is only declared
in the header (Parser.hpp:194); spec section 4.2 step 3: a face is kept iff
inside-exterior is true and inside-some-hole is false. -/
def faceKept (info : FaceInfo) : Bool := info.1 && !info.2

/-- The 9 floats a kept face contributes: 3 vertices times x, y, z. -/
def coordsOfFace (fc : TriFace) : List Coord :=
  [(fc.vertex 0).1, (fc.vertex 0).2.1, (fc.vertex 0).2.2,
   (fc.vertex 1).1, (fc.vertex 1).2.1, (fc.vertex 1).2.2,
   (fc.vertex 2).1, (fc.vertex 2).2.1, (fc.vertex 2).2.2]

/-- Modelled from the spec: the triangle-emission loop of
Parser::addTrianglesFromTheConstrainedTriangulationOfPolygon (declared
Parser.hpp:194, body not in the header); spec section 4.2 steps 3-4: emit one
triangle (9 floats) for every kept face of the triangulation, discard every
other face silently — the function is total and has no error outcome. The
constrained triangulation itself stays abstract: its classified faces are the
argument. -/
def trianglesOfFaces (faces : List TriFace) : List Coord :=
  faces.foldl (fun buffer fc => if faceKept fc.info then buffer ++ coordsOfFace fc else buffer) []

/-- struct ParsedRing (Parser.hpp:49-51). -/
structure ParsedRing where
  points : List (Coord × Coord × Coord)

/-- struct ParsedPolygon (Parser.hpp:53-56). -/
structure ParsedPolygon where
  exteriorRing : ParsedRing
  interiorRings : List ParsedRing

/-- struct ParsedObject (Parser.hpp:58-65); the maps are modelled as
association lists. -/
structure ParsedObject where
  type : String
  id : String
  attributes : List (String × String)
  polygonsByType : List (String × List ParsedPolygon)
  trianglesByType : List (String × List Coord)
  edges : List Coord

/-- All rings of a polygon, exterior first. -/
def ParsedPolygon.rings (p : ParsedPolygon) : List ParsedRing :=
  p.exteriorRing :: p.interiorRings

/-- The consecutive point pairs of a ring including the closing pair (last
point back to first), each to become one edge segment. -/
def ringSegments (r : ParsedRing) : List ((Coord × Coord × Coord) × (Coord × Coord × Coord)) :=
  r.points.zip (r.points.rotate 1)

/-- The 6 floats of one edge segment: 2 endpoints times x, y, z. -/
def segmentFloats (s : (Coord × Coord × Coord) × (Coord × Coord × Coord)) : List Coord :=
  [s.1.1, s.1.2.1, s.1.2.2, s.2.1, s.2.2.1, s.2.2.2]

/-- Modelled from the spec: Parser::regenerateTrianglesFor (declared
Parser.hpp:195, body not in the header); spec section 4.5: for every
surface-type polygon list, clear and rebuild that type's triangle buffer from
the kept faces of each polygon's triangulation (tri abstracts plane fit plus
constrained triangulation plus classification). -/
def regenerateTrianglesFor (tri : ParsedPolygon → List TriFace) (obj : ParsedObject) : ParsedObject :=
  { obj with trianglesByType :=
      obj.polygonsByType.map (fun e => (e.1, (e.2.map (fun p => trianglesOfFaces (tri p))).flatten)) }

/-- Modelled from the spec: Parser::regenerateEdgesFor (declared
Parser.hpp:196, body not in the header); spec section 4.5: clear and rebuild
the object's edge buffer, emitting for every ring of every polygon each
consecutive point pair plus the closing pair as one 6-float segment. -/
def regenerateEdgesFor (obj : ParsedObject) : ParsedObject :=
  { obj with edges :=
      (((obj.polygonsByType.map (fun e => e.2)).flatten.map ParsedPolygon.rings).flatten.map
        (fun r => ((ringSegments r).map segmentFloats).flatten)).flatten }

/-- Modelled from the spec: Parser::regenerateGeometries (declared
Parser.hpp:197, body not in the header); spec section 4.5: rebuild the
triangle buffers and the edge buffer of every object. -/
def regenerateGeometries (tri : ParsedPolygon → List TriFace) (objs : List ParsedObject) : List ParsedObject :=
  objs.map (fun obj => regenerateEdgesFor (regenerateTrianglesFor tri obj))

/-- Flattening of a list of token triples into the token sequence of a
position list made of x y z triples. -/
def flatTriples (ts : List (String × String × String)) : List String :=
  ts.flatMap (fun x => [x.1, x.2.1, x.2.2])

/-- The point the extraction loop builds from one x y z token triple: a fresh
point whose three coordinate slots are written in order. -/
def mkParsedPoint (x : String × String × String) : ParsedPoint :=
  ⟨Function.update (Function.update (Function.update (fun _ => 0) 0 (stofValue x.1))
      1 (stofValue x.2.1)) 2 (stofValue x.2.2)⟩

/-- A concrete stand-in for the triangulation: one kept face and one face
inside a hole. Used to instantiate theorems quantified over the abstract
triangulation. -/
def demoTri : ParsedPolygon → List TriFace :=
  fun _ => [⟨(true, false), fun _ => (1, 2, 3)⟩, ⟨(true, true), fun _ => (0, 0, 0)⟩]

/-- A concrete triangular ring. -/
def demoRing : ParsedRing := ⟨[(0, 0, 0), (1, 0, 0), (0, 1, 0)]⟩

/-- A concrete object with one roof polygon. -/
def demoObject : ParsedObject :=
  ⟨"Building", "b1", [], [("RoofSurface", [⟨demoRing, []⟩])], [], []⟩


theorem stofModel_eq_ok (t : String) (h : isOkStof t = true) :
    stofModel t = .ok (stofValue t) := by
  unfold isOkStof at h
  unfold stofValue
  cases hm : stofModel t <;> simp_all

theorem pointsLoop_cons_ok (tok : String) (toks : List String) (ps : List ParsedPoint)
    (cc : Fin 3) (v : Coord) (h : stofModel tok = .ok v) :
    ∃ ps2, pointsLoop (tok :: toks) ps cc = pointsLoop toks ps2 (cc + 1) := by
  simp only [pointsLoop, h]
  split
  · exact ⟨[], rfl⟩
  · exact ⟨_, rfl⟩

theorem pointsLoop_step0 (a : String) (v : Coord) (rest : List String)
    (ps : List ParsedPoint) (h : stofModel a = .ok v) :
    pointsLoop (a :: rest) ps 0 =
      pointsLoop rest (⟨Function.update (fun _ => 0) 0 v⟩ :: ps) 1 := by
  simp only [pointsLoop, h]
  rfl

theorem pointsLoop_step1 (a : String) (v : Coord) (rest : List String)
    (p : ParsedPoint) (tail : List ParsedPoint) (h : stofModel a = .ok v) :
    pointsLoop (a :: rest) (p :: tail) 1 =
      pointsLoop rest (⟨Function.update p.coordinates 1 v⟩ :: tail) 2 := by
  simp only [pointsLoop, h]
  rfl

theorem pointsLoop_step2 (a : String) (v : Coord) (rest : List String)
    (p : ParsedPoint) (tail : List ParsedPoint) (h : stofModel a = .ok v) :
    pointsLoop (a :: rest) (p :: tail) 2 =
      pointsLoop rest (⟨Function.update p.coordinates 2 v⟩ :: tail) 0 := by
  simp only [pointsLoop, h]
  rfl

theorem pointsLoop_triples (ts : List (String × String × String)) :
    ∀ ps : List ParsedPoint, (∀ t ∈ flatTriples ts, isOkStof t = true) →
      pointsLoop (flatTriples ts) ps 0 = .done ((ts.map mkParsedPoint).reverse ++ ps) 0 := by
  induction ts with
  | nil => intro ps _; simp [flatTriples, pointsLoop]
  | cons x rest ih =>
    intro ps hok
    have hflat : flatTriples (x :: rest) = x.1 :: x.2.1 :: x.2.2 :: flatTriples rest := by
      simp [flatTriples]
    have ha := stofModel_eq_ok x.1 (hok x.1 (by simp [hflat]))
    have hb := stofModel_eq_ok x.2.1 (hok x.2.1 (by simp [hflat]))
    have hc := stofModel_eq_ok x.2.2 (hok x.2.2 (by simp [hflat]))
    rw [hflat, pointsLoop_step0 _ _ _ _ ha, pointsLoop_step1 _ _ _ _ _ hb,
      pointsLoop_step2 _ _ _ _ _ hc,
      ih _ (fun t ht => hok t (by simp [hflat, ht]))]
    simp [mkParsedPoint]

theorem pointsLoop_allOk (toks : List String) :
    ∀ (ps : List ParsedPoint) (cc : Fin 3), (∀ t ∈ toks, isOkStof t = true) →
      ∃ ps2 cc2, pointsLoop toks ps cc = .done ps2 cc2 ∧
        (cc2 : ℕ) = ((cc : ℕ) + toks.length) % 3 := by
  induction toks with
  | nil =>
    intro ps cc _
    refine ⟨ps, cc, rfl, ?_⟩
    have := cc.isLt
    simp only [List.length_nil, Nat.add_zero]
    omega
  | cons tok rest ih =>
    intro ps cc hok
    have h1 := stofModel_eq_ok tok (hok tok (by simp))
    obtain ⟨ps2, hstep⟩ := pointsLoop_cons_ok tok rest ps cc _ h1
    obtain ⟨ps3, cc3, hdone, hcc⟩ := ih ps2 (cc + 1) (fun t ht => hok t (by simp [ht]))
    refine ⟨ps3, cc3, by rw [hstep, hdone], ?_⟩
    have hadd : ((cc + 1 : Fin 3) : ℕ) = ((cc : ℕ) + 1) % 3 := by
      simp [Fin.val_add]
    rw [hcc, hadd]
    simp only [List.length_cons]
    omega

theorem pointsLoop_invalid (pre : List String) :
    ∀ (bad : String) (rest : List String) (ps : List ParsedPoint) (cc : Fin 3),
      (∀ t ∈ pre, isOkStof t = true) → stofModel bad = .invalidArgument →
      pointsLoop (pre ++ bad :: rest) ps cc = .invalid := by
  induction pre with
  | nil =>
    intro bad rest ps cc _ hbad
    simp only [List.nil_append, pointsLoop, hbad]
  | cons tok pre ih =>
    intro bad rest ps cc hok hbad
    have h1 := stofModel_eq_ok tok (hok tok (by simp))
    obtain ⟨ps2, hstep⟩ := pointsLoop_cons_ok tok (pre ++ bad :: rest) ps cc _ h1
    rw [List.cons_append, hstep,
      ih bad rest ps2 (cc + 1) (fun t ht => hok t (by simp [ht])) hbad]

/-- C1: during XML point extraction, a token that fails to parse as a number
(std::invalid_argument) aborts the ring's extraction: every point accumulated
so far for the ring is discarded, one diagnostic line is printed, and
for_each returns true so parsing of sibling content continues; in particular
the position-list text "1.0 foo 3.0" yields 0 points and one diagnostic. -/
theorem pointsWalker_invalid_token_discards
    (name text : String) (ps : List ParsedPoint) (pre rest : List String) (bad : String)
    (hname : name = "gml:pos" ∨ name = "gml:posList")
    (htok : tokenize text = pre ++ bad :: rest)
    (hpre : ∀ t ∈ pre, isOkStof t = true)
    (hbad : stofModel bad = .invalidArgument) :
    PointsWalker.forEach ps name text = .ret [] 1 true ∧
    PointsWalker.forEach [] ("gml:pos") ("1.0 foo 3.0") = .ret [] 1 true := by
  refine ⟨?_, by decide⟩
  have hinv := pointsLoop_invalid pre bad rest ps.reverse 0 hpre hbad
  rcases hname with h | h <;> subst h <;> simp [PointsWalker.forEach, htok, hinv]

theorem pointsWalker_invalid_token_discards_witness :
    PointsWalker.forEach [] ("gml:posList") ("2.5 x 7.5") = .ret [] 1 true ∧
    PointsWalker.forEach [] ("gml:pos") ("1.0 foo 3.0") = .ret [] 1 true :=
  pointsWalker_invalid_token_discards ("gml:posList") ("2.5 x 7.5") []
    ["2.5"] ["7.5"] ("x") (Or.inr rfl) (by decide) (by decide) (by decide)

/-- C2: a position list whose tokens are N valid x y z triples produces
exactly the N points built by grouping each 3 consecutive successfully parsed
tokens; a position list whose token count is not a multiple of 3 has all of
the ring's accumulated points discarded, leaving an empty ring with one
diagnostic; in particular the 5-token text "1.0 2.0 3.0 4.0 5.0" yields
0 points. -/
theorem pointsWalker_triple_grouping
    (ts : List (String × String × String)) (text1 text2 : String)
    (toks2 : List String) (ps : List ParsedPoint)
    (h1 : tokenize text1 = flatTriples ts)
    (hok1 : ∀ t ∈ flatTriples ts, isOkStof t = true)
    (h2 : tokenize text2 = toks2)
    (hok2 : ∀ t ∈ toks2, isOkStof t = true)
    (hmod : toks2.length % 3 ≠ 0) :
    PointsWalker.forEach [] ("gml:posList") text1 = .ret (ts.map mkParsedPoint) 0 true ∧
    (ts.map mkParsedPoint).length = ts.length ∧
    PointsWalker.forEach ps ("gml:posList") text2 = .ret [] 1 true ∧
    PointsWalker.forEach [] ("gml:posList") ("1.0 2.0 3.0 4.0 5.0") = .ret [] 1 true := by
  refine ⟨?_, by simp, ?_, by decide⟩
  · have hloop := pointsLoop_triples ts [] hok1
    simp [PointsWalker.forEach, h1, hloop]
  · obtain ⟨ps2, cc2, hdone, hcc⟩ := pointsLoop_allOk toks2 ps.reverse 0 hok2
    have hne : cc2 ≠ 0 := by
      intro h0
      rw [h0] at hcc
      simp only [Fin.val_zero, Nat.zero_add] at hcc
      omega
    simp [PointsWalker.forEach, h2, hdone, hne]

theorem pointsWalker_triple_grouping_witness :
    PointsWalker.forEach [] ("gml:posList") ("0 0 0 10 0 0")
      = .ret ([("0", "0", "0"), ("10", "0", "0")].map mkParsedPoint) 0 true ∧
    ([("0", "0", "0"), ("10", "0", "0")].map mkParsedPoint).length = 2 ∧
    PointsWalker.forEach [] ("gml:posList") ("1 2 3 4") = .ret [] 1 true ∧
    PointsWalker.forEach [] ("gml:posList") ("1.0 2.0 3.0 4.0 5.0") = .ret [] 1 true :=
  pointsWalker_triple_grouping [("0", "0", "0"), ("10", "0", "0")]
    ("0 0 0 10 0 0") ("1 2 3 4") ["1", "2", "3", "4"] []
    (by decide) (by decide) (by decide) (by decide) (by decide)

/-- C9: PointsWalker reads coordinates only from nodes whose full name is
exactly gml:pos or gml:posList; the namespace prefix is not stripped there,
so any other name, for example citygml:posList (whose stripped local name is
posList) or plain posList, leaves the walker unchanged and contributes no
points. -/
theorem pointsWalker_exact_name_only
    (ps : List ParsedPoint) (name text : String)
    (h1 : name ≠ "gml:pos") (h2 : name ≠ "gml:posList") :
    PointsWalker.forEach ps name text = .ret ps 0 true ∧
    stripNamespace ("citygml:posList") = "posList" ∧
    PointsWalker.forEach [] ("citygml:posList") ("1.0 2.0 3.0") = .ret [] 0 true ∧
    PointsWalker.forEach [] ("posList") ("1.0 2.0 3.0") = .ret [] 0 true := by
  refine ⟨?_, by decide, by decide, by decide⟩
  simp [PointsWalker.forEach, h1, h2]

theorem pointsWalker_exact_name_only_witness :
    PointsWalker.forEach [] ("citygml:pos") ("7.5 0.5 1.5") = .ret [] 0 true ∧
    stripNamespace ("citygml:posList") = "posList" :=
  let h := pointsWalker_exact_name_only [] ("citygml:pos") ("7.5 0.5 1.5")
    (by decide) (by decide)
  ⟨h.1, h.2.1⟩

/-- C10: the recoverable discard-and-continue path handles only tokens that
fail to parse at all (std::invalid_argument): the numeric token 4e38 is out
of float range, stof throws std::out_of_range, which the catch clause does
not catch, so extraction ends with an escaping exception rather than the
contained log-and-skip outcome. -/
theorem pointsWalker_out_of_range_not_contained :
    stofModel ("4e38") = .outOfRange ∧
    PointsWalker.forEach [] ("gml:posList") ("4e38 1.0 2.0") = .thrown ∧
    PointsWalker.forEach [] ("gml:posList") ("4e38 1.0 2.0") ≠ .ret [] 1 true := by
  refine ⟨by decide, by decide, by decide⟩

/-- C3: for every traversal step of surface-type classification with an
active defined type: when the visited element does not itself start a defined
type, the context reverts to undefined exactly when the traversal depth is at
most the recorded entry depth; the depth-exit check runs before the new-type
check, so a surface-type element at a depth at most the entry depth (for
example a sibling at the same depth) still establishes a new defined-type
context, and a Polygon or Triangle at such a depth is filed under the
undefined key. -/
theorem polygonsWalker_depth_exit
    (st : PolygonsWalker) (idx : ℕ) (name : String) (depth : ℕ)
    (hactive : st.inDefinedType ≠ "") :
    (stripNamespace name ∉ definedSurfaceTypes →
      ((st.forEach idx name depth).inDefinedType = "" ↔ depth ≤ st.depthToStop)) ∧
    (stripNamespace name ∈ definedSurfaceTypes →
      (st.forEach idx name depth).inDefinedType = stripNamespace name ∧
      (st.forEach idx name depth).depthToStop = depth) ∧
    ((stripNamespace name = "Polygon" ∨ stripNamespace name = "Triangle") →
      depth ≤ st.depthToStop →
      (st.forEach idx name depth).polygonsByType = st.polygonsByType ++ [("", idx)]) := by
  refine ⟨?_, ?_, ?_⟩
  · intro hmem
    simp only [definedSurfaceTypes, List.mem_cons, List.not_mem_nil, or_false, not_or] at hmem
    obtain ⟨h1, h2, h3, h4⟩ := hmem
    by_cases hd : depth ≤ st.depthToStop
    · simp [PolygonsWalker.forEach, h1, h2, h3, h4, hactive, hd]
      split <;> rfl
    · simp [PolygonsWalker.forEach, h1, h2, h3, h4, hactive, hd]
      split <;> exact hactive
  · intro hmem
    simp only [definedSurfaceTypes, List.mem_cons, List.not_mem_nil, or_false] at hmem
    rcases hmem with h | h | h | h <;> simp [PolygonsWalker.forEach, h]
  · intro hb hd
    rcases hb with h | h <;> simp [PolygonsWalker.forEach, h, hactive, hd]

theorem polygonsWalker_depth_exit_witness :
    ((PolygonsWalker.forEach ⟨[], "RoofSurface", 2⟩ 5 ("bldg:GroundSurface") 2).inDefinedType
        = "GroundSurface" ∧
      (PolygonsWalker.forEach ⟨[], "RoofSurface", 2⟩ 5 ("bldg:GroundSurface") 2).depthToStop = 2) ∧
    ((PolygonsWalker.forEach ⟨[], "RoofSurface", 2⟩ 6 ("gml:name") 2).inDefinedType = "" ↔ 2 ≤ 2) ∧
    (PolygonsWalker.forEach ⟨[], "RoofSurface", 2⟩ 7 ("gml:Polygon") 2).polygonsByType
        = [("", 7)] := by
  refine ⟨?_, ?_, ?_⟩
  · have h := (polygonsWalker_depth_exit ⟨[], "RoofSurface", 2⟩ 5 ("bldg:GroundSurface") 2
      (by decide)).2.1 (by decide)
    exact ⟨h.1.trans (by decide), h.2⟩
  · exact (polygonsWalker_depth_exit ⟨[], "RoofSurface", 2⟩ 6 ("gml:name") 2
      (by decide)).1 (by decide)
  · have h := (polygonsWalker_depth_exit ⟨[], "RoofSurface", 2⟩ 7 ("gml:Polygon") 2
      (by decide)).2.2 (Or.inl (by decide)) (by decide)
    exact h.trans (by decide)

/-- C5: at every traversal step, an element whose namespace-stripped local
name is Door, GroundSurface, RoofSurface or Window becomes the current
defined type with its entry depth recorded, and an element whose stripped
local name is Polygon or Triangle is filed under the currently active defined
type — the undefined key "" when no defined type is active after the
depth-exit rule. -/
theorem polygonsWalker_filing
    (st : PolygonsWalker) (idx : ℕ) (name : String) (depth : ℕ) :
    (stripNamespace name ∈ definedSurfaceTypes →
      (st.forEach idx name depth).inDefinedType = stripNamespace name ∧
      (st.forEach idx name depth).depthToStop = depth) ∧
    ((stripNamespace name = "Polygon" ∨ stripNamespace name = "Triangle") →
      (st.forEach idx name depth).polygonsByType =
        st.polygonsByType ++
          [((if st.inDefinedType ≠ "" ∧ depth ≤ st.depthToStop then "" else st.inDefinedType),
            idx)]) := by
  refine ⟨?_, ?_⟩
  · intro hmem
    simp only [definedSurfaceTypes, List.mem_cons, List.not_mem_nil, or_false] at hmem
    rcases hmem with h | h | h | h <;> simp [PolygonsWalker.forEach, h]
  · intro hb
    by_cases hc : st.inDefinedType ≠ "" ∧ depth ≤ st.depthToStop <;>
      rcases hb with h | h <;> simp [PolygonsWalker.forEach, h, hc]

theorem polygonsWalker_filing_witness :
    ((PolygonsWalker.forEach ⟨[], "", 0⟩ 2 ("bldg:Door") 4).inDefinedType = "Door" ∧
      (PolygonsWalker.forEach ⟨[], "", 0⟩ 2 ("bldg:Door") 4).depthToStop = 4) ∧
    (PolygonsWalker.forEach ⟨[], "Door", 3⟩ 9 ("gml:Polygon") 5).polygonsByType
        = [("Door", 9)] ∧
    (PolygonsWalker.forEach ⟨[], "", 0⟩ 9 ("gml:Triangle") 5).polygonsByType
        = [("", 9)] := by
  refine ⟨?_, ?_, ?_⟩
  · have h := (polygonsWalker_filing ⟨[], "", 0⟩ 2 ("bldg:Door") 4).1 (by decide)
    exact ⟨h.1.trans (by decide), h.2⟩
  · have h := (polygonsWalker_filing ⟨[], "Door", 3⟩ 9 ("gml:Polygon") 5).2 (Or.inl (by decide))
    exact h.trans (by decide)
  · have h := (polygonsWalker_filing ⟨[], "", 0⟩ 9 ("gml:Triangle") 5).2 (Or.inr (by decide))
    exact h.trans (by decide)

theorem list_dropWhile_all_append (p : Char → Bool) (l2 : List Char) :
    ∀ l1 : List Char, (∀ c ∈ l1, p c = true) →
      (l1 ++ l2).dropWhile p = l2.dropWhile p := by
  intro l1
  induction l1 with
  | nil => intro _; rfl
  | cons c cs ih =>
    intro h
    have hc := h c (by simp)
    have hrest : ∀ x ∈ cs, p x = true := fun x hx => h x (by simp [hx])
    simp [List.dropWhile, hc, ih hrest]

theorem list_dropWhile_all_nil (p : Char → Bool) :
    ∀ l : List Char, (∀ c ∈ l, p c = true) → l.dropWhile p = [] := by
  intro l
  induction l with
  | nil => intro _; rfl
  | cons c cs ih =>
    intro h
    have hc := h c (by simp)
    have hrest : ∀ x ∈ cs, p x = true := fun x hx => h x (by simp [hx])
    simp [List.dropWhile, hc, ih hrest]

theorem stripNamespace_append (pre post : String) (h : (':') ∉ pre.toList) :
    stripNamespace (pre ++ (":") ++ post) = post := by
  obtain ⟨l1⟩ := pre
  obtain ⟨l2⟩ := post
  simp only [String.toList] at h
  unfold stripNamespace
  have hdata : (String.mk l1 ++ (":") ++ String.mk l2).toList = l1 ++ (':') :: l2 := by
    simp [String.toList, String.data_append]
  rw [hdata, list_dropWhile_all_append _ _ l1 ?hall]
  · simp [List.dropWhile]
  case hall =>
    intro c hc
    simp only [bne_iff_ne, ne_eq]
    exact fun h2 => h (h2 ▸ hc)

theorem stripNamespace_no_colon (s : String) (h : (':') ∉ s.toList) :
    stripNamespace s = s := by
  unfold stripNamespace
  rw [list_dropWhile_all_nil _ _ ?hall]
  case hall =>
    intro c hc
    simp only [bne_iff_ne, ne_eq]
    exact fun h2 => h (h2 ▸ hc)

theorem objectsWalker_forEach_spec (st : ObjectsWalker) (idx : ℕ) (name : String) :
    st.forEach idx name =
      if stripNamespace name ∈ cityObjectTypes then ⟨st.objects ++ [idx]⟩ else st := by
  by_cases h : stripNamespace name ∈ cityObjectTypes
  · rw [if_pos h]
    simp only [cityObjectTypes, List.mem_cons, List.not_mem_nil, or_false] at h
    rcases h with h|h|h|h|h|h|h|h|h|h|h|h|h|h|h|h <;> simp [ObjectsWalker.forEach, h]
  · rw [if_neg h]
    simp only [cityObjectTypes, List.mem_cons, List.not_mem_nil, or_false, not_or] at h
    obtain ⟨h1, h2, h3, h4, h5, h6, h7, h8, h9, h10, h11, h12, h13, h14, h15, h16⟩ := h
    simp [ObjectsWalker.forEach, h1, h2, h3, h4, h5, h6, h7, h8, h9, h10, h11,
      h12, h13, h14, h15, h16]

theorem objectsWalker_foldl (l : List (ℕ × String)) :
    ∀ st : ObjectsWalker,
      (l.foldl (fun st p => st.forEach p.1 p.2) st).objects =
        st.objects ++
          (l.filter (fun p => decide (stripNamespace p.2 ∈ cityObjectTypes))).map
            (fun p => p.1) := by
  induction l with
  | nil => intro st; simp
  | cons p rest ih =>
    intro st
    rw [List.foldl_cons, ih, objectsWalker_forEach_spec]
    by_cases h : stripNamespace p.2 ∈ cityObjectTypes <;> simp [h]

/-- C6: object discovery strips any namespace prefix (the text up to and
including the first colon) from every element name and collects an element
exactly when the remaining local name is one of the sixteen whitelisted
city-object type names; elements with non-whitelisted local names are never
collected. -/
theorem objectsWalker_whitelist :
    (∀ names : List String,
      (ObjectsWalker.run names).objects =
        (names.enum.filter (fun p => decide (stripNamespace p.2 ∈ cityObjectTypes))).map
          (fun p => p.1)) ∧
    (∀ pre post : String, (':') ∉ pre.toList →
      stripNamespace (pre ++ (":") ++ post) = post) ∧
    (∀ s : String, (':') ∉ s.toList → stripNamespace s = s) := by
  refine ⟨?_, fun pre post h => stripNamespace_append pre post h,
    fun s h => stripNamespace_no_colon s h⟩
  intro names
  unfold ObjectsWalker.run
  rw [objectsWalker_foldl]
  simp

theorem objectsWalker_whitelist_witness :
    (ObjectsWalker.run ["core:CityModel", "bldg:Building", "gml:name", "brid:Bridge"]).objects
        = [1, 3] ∧
    stripNamespace ("bldg" ++ (":") ++ "Building") = "Building" ∧
    stripNamespace ("Road") = "Road" := by
  refine ⟨?_, ?_, ?_⟩
  · rw [objectsWalker_whitelist.1]
    decide
  · exact objectsWalker_whitelist.2.1 ("bldg") ("Building") (by decide)
  · exact objectsWalker_whitelist.2.2 ("Road") (by decide)

theorem map_some_getLastD_none (l : List ℕ) : (l.map some).getLastD none = l.getLast? := by
  cases h : l.getLast? <;> simp [List.getLastD_eq_getLast?, List.getLast?_map, h]

theorem ringsWalker_foldl_interior (l : List (ℕ × Visit)) :
    ∀ st : RingsWalker,
      (l.foldl (fun st p => st.forEach p.1 p.2.name) st).interiorRings =
        st.interiorRings ++
          (l.filter (fun p => p.2.name = "gml:interior")).map (fun p => p.1) := by
  induction l with
  | nil => intro st; simp
  | cons p rest ih =>
    intro st
    rw [List.foldl_cons, ih]
    unfold RingsWalker.forEach
    by_cases h1 : p.2.name = "gml:exterior"
    · simp [h1]
    · by_cases h2 : p.2.name = "gml:interior" <;> simp [h1, h2]

theorem ringsWalker_foldl_exterior (l : List (ℕ × Visit)) :
    ∀ st : RingsWalker,
      (l.foldl (fun st p => st.forEach p.1 p.2.name) st).exteriorRing =
        (((l.filter (fun p => p.2.name = "gml:exterior")).map (fun p => p.1)).map some).getLastD
          st.exteriorRing := by
  induction l using List.reverseRecOn with
  | nil => intro st; simp
  | append_singleton xs p ih =>
    intro st
    rw [List.foldl_append, List.foldl_cons, List.foldl_nil]
    unfold RingsWalker.forEach
    by_cases h1 : p.2.name = "gml:exterior"
    · rw [if_pos h1]
      have hf : (xs ++ [p]).filter (fun q => q.2.name = "gml:exterior") =
          xs.filter (fun q => q.2.name = "gml:exterior") ++ [p] := by
        rw [List.filter_append]
        simp [h1]
      rw [hf, List.map_append, List.map_append]
      simp only [List.map_cons, List.map_nil, List.getLastD_concat]
    · have hf : (xs ++ [p]).filter (fun q => q.2.name = "gml:exterior") =
          xs.filter (fun q => q.2.name = "gml:exterior") := by
        rw [List.filter_append]
        simp [h1]
      by_cases h2 : p.2.name = "gml:interior"
      · rw [if_neg h1, if_pos h2, hf]
        exact ih st
      · rw [if_neg h1, if_neg h2, hf]
        exact ih st

/-- C7 counterexample: ring discovery does not restrict itself to the
Polygon's direct children: on a Polygon subtree whose visits are
gml:exterior (a child, depth 0), wrap (a child, depth 0) and gml:interior
(a grandchild inside wrap, depth 1), RingsWalker takes the grandchild as an
interior ring even though the Polygon has no "interior" child, contradicting
the children-only reading of the claim. -/
theorem ringsWalker_children_counterexample :
    (RingsWalker.run [⟨"gml:exterior", 0⟩, ⟨"wrap", 0⟩, ⟨"gml:interior", 1⟩]).interiorRings
        = [2] ∧
    childIndicesNamed [⟨"gml:exterior", 0⟩, ⟨"wrap", 0⟩, ⟨"gml:interior", 1⟩] ("gml:interior")
        = [] := by
  decide

/-- C7 amended: for every Polygon element, ring discovery takes the last
descendant named gml:exterior (the single exterior child, when it is the only
exterior descendant) as the polygon's exterior ring, and collects all
descendants named gml:interior, in document order, as the polygon's interior
rings; no other elements are taken as rings. -/
theorem ringsWalker_rings (visits : List Visit) :
    (RingsWalker.run visits).exteriorRing = (indicesNamed visits ("gml:exterior")).getLast? ∧
    (RingsWalker.run visits).interiorRings = indicesNamed visits ("gml:interior") := by
  constructor
  · unfold RingsWalker.run indicesNamed
    rw [ringsWalker_foldl_exterior]
    exact map_some_getLastD_none _
  · unfold RingsWalker.run indicesNamed
    rw [ringsWalker_foldl_interior]
    simp

theorem trianglesOfFaces_foldl (faces : List TriFace) :
    ∀ acc : List Coord,
      faces.foldl
          (fun buffer fc => if faceKept fc.info then buffer ++ coordsOfFace fc else buffer) acc =
        acc ++ ((faces.filter (fun fc => faceKept fc.info)).map coordsOfFace).flatten := by
  induction faces with
  | nil => intro acc; simp
  | cons fc rest ih =>
    intro acc
    rw [List.foldl_cons]
    by_cases h : faceKept fc.info = true <;> simp [h, ih, List.append_assoc]

theorem trianglesOfFaces_spec (faces : List TriFace) :
    trianglesOfFaces faces =
      ((faces.filter (fun fc => faceKept fc.info)).map coordsOfFace).flatten := by
  unfold trianglesOfFaces
  rw [trianglesOfFaces_foldl]
  simp

theorem flatten_map_const_length {α : Type} (f : α → List Coord) (k : ℕ)
    (hf : ∀ a, (f a).length = k) :
    ∀ l : List α, ((l.map f).flatten).length = k * l.length := by
  intro l
  induction l with
  | nil => simp
  | cons a rest ih =>
    simp only [List.map_cons, List.flatten_cons, List.length_append, ih, hf a, List.length_cons]
    ring

theorem trianglesOfFaces_length (faces : List TriFace) :
    (trianglesOfFaces faces).length =
      9 * (faces.filter (fun fc => faceKept fc.info)).length := by
  rw [trianglesOfFaces_spec, flatten_map_const_length coordsOfFace 9 (fun fc => rfl)]

theorem flatten_length_mod (k : ℕ) (ls : List (List Coord)) :
    (∀ l ∈ ls, l.length % k = 0) → ls.flatten.length % k = 0 := by
  induction ls with
  | nil => intro _; simp
  | cons l rest ih =>
    intro h
    simp only [List.flatten_cons, List.length_append]
    have h1 := h l (by simp)
    have h2 := ih (fun x hx => h x (by simp [hx]))
    rw [Nat.add_mod, h1, h2]
    simp

/-- C4: every triangulation face is annotated with exactly two boolean flags,
the std::pair of FaceBaseWithInfo (inside-exterior, inside-some-hole); a
triangle is emitted for a face iff its inside-exterior flag is true and its
inside-some-hole flag is false, each kept face contributing exactly 9 floats;
every other face contributes nothing, and the emission function is total — it
has no error outcome, so discarding is silent. -/
theorem faceClassification_kept_iff (faces : List TriFace) (info : FaceInfo) :
    (faceKept info = true ↔ info.1 = true ∧ info.2 = false) ∧
    trianglesOfFaces faces =
      ((faces.filter (fun fc => faceKept fc.info)).map coordsOfFace).flatten ∧
    (trianglesOfFaces faces).length =
      9 * (faces.filter (fun fc => faceKept fc.info)).length := by
  refine ⟨?_, trianglesOfFaces_spec faces, trianglesOfFaces_length faces⟩
  unfold faceKept
  cases info.1 <;> cases h2 : info.2 <;> simp [h2]

/-- C8: after regeneration, every per-surface-type triangle buffer of every
object has length a multiple of 9 (each kept triangle is 9 consecutive
floats) and every object's edge buffer has length a multiple of 6 (each
boundary segment is 6 consecutive floats), for any triangulation outcome. -/
theorem regeneration_buffer_lengths
    (tri : ParsedPolygon → List TriFace) (objs : List ParsedObject) (obj : ParsedObject)
    (hmem : obj ∈ regenerateGeometries tri objs) :
    (∀ e ∈ obj.trianglesByType, e.2.length % 9 = 0) ∧ obj.edges.length % 6 = 0 := by
  obtain ⟨o, ho, rfl⟩ := List.mem_map.mp hmem
  constructor
  · intro e he
    simp only [regenerateEdgesFor, regenerateTrianglesFor] at he
    obtain ⟨pe, hpe, rfl⟩ := List.mem_map.mp he
    refine flatten_length_mod 9 _ ?_
    intro l hl
    obtain ⟨p, hp, rfl⟩ := List.mem_map.mp hl
    rw [trianglesOfFaces_length]
    omega
  · simp only [regenerateEdgesFor, regenerateTrianglesFor]
    refine flatten_length_mod 6 _ ?_
    intro l hl
    obtain ⟨r, hr, rfl⟩ := List.mem_map.mp hl
    rw [flatten_map_const_length segmentFloats 6 (fun s => rfl)]
    omega

theorem regeneration_buffer_lengths_witness :
    (∀ e ∈ (regenerateEdgesFor (regenerateTrianglesFor demoTri demoObject)).trianglesByType,
        e.2.length % 9 = 0) ∧
    (regenerateEdgesFor (regenerateTrianglesFor demoTri demoObject)).edges.length % 6 = 0 :=
  regeneration_buffer_lengths demoTri [demoObject]
    (regenerateEdgesFor (regenerateTrianglesFor demoTri demoObject))
    (List.mem_singleton.mpr rfl)
